import Mathlib

/-!
# Verification of the ez-guitar-hero game core

Shallow embedding of the deterministic game-state reducer, note scheduler
and PRNG from `src/main.ts` and `util.ts`, together with proofs of the
spec's testable properties.

Modelling conventions:
* JavaScript numbers are modelled as exact rationals (`ℚ`); counters and
  array lengths as `ℕ`; the integer score as `ℤ` (every write to `points`
  in the source truncates with `~~`, so the stored value is an integer).
* `~~x` (truncation toward zero) is modelled by `jsTrunc`; the literal
  `0.2` is modelled by the exact rational `1/5`.
* A tail literal built without an `inactive` property (`{start, end}`)
  leaves `inactive` as `undefined`, which behaves as `false` in every
  boolean test in the source; it is modelled as `false`.
* `end` is a reserved word in Lean, so the tail field `end` is named
  `end_`.
-/

/-- Constants from `GameSettings` in `main.ts`. -/
def GameSettings.INCREMENT : ℚ := 1

/-- Falling-speed divisor from `GameSettings`. -/
def GameSettings.RATE : ℚ := 7

/-- Hit-window height from `GameSettings`. -/
def GameSettings.THRESHOLD : ℚ := 40

/-- Bottom row from `GameSettings`. -/
def GameSettings.LAST_ROW : ℚ := 350

/-- `TailInfo` from `main.ts`: the sustained-note indicator. -/
structure TailInfo where
  start : ℚ
  end_ : ℚ
  inactive : Bool
deriving DecidableEq, Repr

/-- `MusicalNote` from `main.ts`. -/
structure MusicalNote where
  id : ℕ
  visible : Bool
  yPos : ℚ
  column : ℕ
  instrument : String
  volume : ℚ
  pitch : ℚ
  startTime : ℚ
  endTime : ℚ
  tail : Option TailInfo
deriving DecidableEq, Repr

/-- `GameState` from `main.ts`. -/
structure GameState where
  isGameOver : Bool
  allNotesFinished : Bool
  tickCount : ℕ
  randomSeed : ℕ
  notesPlayed : ℕ
  points : ℤ
  activeNotes : List MusicalNote
  expiredNotes : List MusicalNote
  readyNotes : List MusicalNote
deriving DecidableEq, Repr

/-- LCG modulus `0x80000000` from `util.ts`. -/
def RNG.modulus : ℕ := 0x80000000

/-- `RNG.hash` from `util.ts`: `(multiplier * seed + increment) % modulus`. -/
def RNG.hash (seed : ℕ) : ℕ :=
  (1103515245 * seed + 12345) % RNG.modulus

/-- `RNG.scale` from `util.ts`: `((2 * hash) / (modulus - 1) - 1 + 1) / 2`. -/
def RNG.scale (h : ℕ) : ℚ :=
  ((2 * (h : ℚ)) / ((RNG.modulus : ℚ) - 1) - 1 + 1) / 2

/-- JavaScript `~~x`: truncation toward zero (the values in this program
never reach the 2^31 wrap of `ToInt32`). -/
def jsTrunc (q : ℚ) : ℤ :=
  if q < 0 then ⌈q⌉ else ⌊q⌋

/-- The score multiplier `1 + 0.2 * floor(notesPlayed / 10)` used by both
`PressButton` and `ReleaseButton` (`0.2` modelled exactly as `1/5`). -/
def multiplier (notesPlayed : ℕ) : ℚ :=
  1 + (1 / 5) * ((notesPlayed / 10 : ℕ) : ℚ)

/-- `updateNoteYPos` from `advanceTick` in `main.ts`: moves one note one
increment down and decides whether it stays active (first component) and
whether it must sound now (second component). -/
def updateNoteYPos (increment bottom : ℚ) (note : MusicalNote) :
    Option MusicalNote × Option MusicalNote :=
  let newY := note.yPos + increment
  match note.tail with
  | some tl =>
      let updatedTail : TailInfo :=
        { start := tl.start + increment,
          end_ := if note.visible then tl.end_ + increment else bottom,
          inactive := if note.visible then false else tl.inactive }
      let updatedNote : MusicalNote := { note with yPos := newY, tail := some updatedTail }
      if note.visible then
        if updatedTail.end_ = bottom then
          if updatedTail.start < bottom then
            (some { updatedNote with
                      visible := false
                      tail := some { updatedTail with inactive := true } }, none)
          else (none, none)
        else
          if updatedTail.start < bottom then (some updatedNote, none) else (none, none)
      else
        if newY = bottom then (some updatedNote, some updatedNote)
        else if updatedTail.start < bottom then (some updatedNote, none) else (none, none)
  | none =>
      if newY ≤ bottom then
        if note.visible then
          if newY < bottom then (some { note with yPos := newY }, none)
          else (none, none)
        else
          if newY < bottom then (some { note with yPos := newY }, none)
          else (none, some { note with yPos := newY })
      else (none, none)

/-- `calcPositionForGame`: `updateNoteYPos` at the game constants. -/
def calcPositionForGame (note : MusicalNote) : Option MusicalNote × Option MusicalNote :=
  updateNoteYPos GameSettings.INCREMENT GameSettings.LAST_ROW note

/-- First component of `calcPositionForGame`: the surviving active note. -/
def tickNoteStep (note : MusicalNote) : Option MusicalNote :=
  (calcPositionForGame note).1

/-- Second component of `calcPositionForGame`: the note emitted to `readyNotes`. -/
def tickNoteReady (note : MusicalNote) : Option MusicalNote :=
  (calcPositionForGame note).2

/-- Accumulator of the `reduce` in `advanceTick`: appends the surviving
note and the ready note (when present) to the two lists. -/
def noteAccum (acc : List MusicalNote × List MusicalNote) (note : MusicalNote) :
    List MusicalNote × List MusicalNote :=
  let p := calcPositionForGame note
  (match p.1 with
   | some u => acc.1 ++ [u]
   | none => acc.1,
   match p.2 with
   | some r => acc.2 ++ [r]
   | none => acc.2)

/-- `isNoteAtBottom` from `advanceTick`. -/
def isNoteAtBottom (note : MusicalNote) : Bool :=
  decide (note.yPos + 1 = GameSettings.LAST_ROW) && note.visible

/-- `advanceTick` from `main.ts` (the common per-tick note advancement,
including the self-referential `notesPlayed` no-op of the source). -/
def advanceTick (state : GameState) : GameState :=
  let acc := state.activeNotes.foldl noteAccum ([], [])
  { state with
    isGameOver := state.allNotesFinished && decide (acc.1.length = 0) &&
      decide (acc.2.length = 0) && decide (state.expiredNotes.length = 0)
    activeNotes := acc.1
    notesPlayed := if (acc.1.filter isNoteAtBottom).length = 0
      then state.notesPlayed else state.notesPlayed
    expiredNotes := state.activeNotes
    readyNotes := acc.2 }

/-- The hit-window test of `PressButton.execute`. -/
def pressMatch (column : ℕ) (note : MusicalNote) : Bool :=
  decide (GameSettings.LAST_ROW - GameSettings.THRESHOLD ≤ note.yPos) &&
  decide (note.yPos < GameSettings.LAST_ROW) && (note.column == column) && note.visible

/-- Accumulator of the scoring `reduce` in `PressButton.execute`. -/
def pressAccum (column : ℕ) (notesPlayed : ℕ) (acc : Bool × ℚ) (note : MusicalNote) :
    Bool × ℚ :=
  if pressMatch column note then (true, acc.2 + multiplier notesPlayed) else acc

/-- The per-note visibility update of `PressButton.execute`. -/
def pressNoteUpd (column : ℕ) (note : MusicalNote) : MusicalNote :=
  if pressMatch column note then { note with visible := false } else note

/-- The `samples` instrument list of `PressButton.execute`. -/
def sampleNames : List String :=
  ["piano", "violin", "flute", "saxophone", "trumpet", "bass-electric"]

/-- The synthesized `incorrectNote` of `PressButton.execute`.  All four
randomized fields are scaled from the same single draw
`RNG.scale state.randomSeed`.  Fields absent from the source literal
(`id`, `visible`, `yPos`, `column`, `tail`) are `undefined` there and are
modelled by defaults that no game logic ever reads. -/
def incorrectNote (seed : ℕ) : MusicalNote :=
  { id := 0, visible := false, yPos := 0, column := 0,
    instrument :=
      (sampleNames.get? (jsTrunc (RNG.scale seed * (sampleNames.length : ℚ))).toNat).getD
        "undefined",
    volume := ((jsTrunc (RNG.scale seed * 90) : ℤ) : ℚ),
    pitch := ((jsTrunc (RNG.scale seed * 70) : ℤ) : ℚ),
    startTime := 0,
    endTime := ((jsTrunc (RNG.scale seed * 500) : ℤ) : ℚ),
    tail := none }

/-- The wrong-press test of `PressButton.execute` (note: it only asks for
a resolved note with *some* tail in the column, not an active one). -/
def checkWrongPress (column : ℕ) (activated : Bool) (updatedActiveNotes : List MusicalNote) :
    Bool :=
  !activated &&
    decide ((updatedActiveNotes.filter
      (fun note => (note.column == column) && !note.visible && note.tail.isSome)).length = 0)

/-- `PressButton.execute` from `main.ts`. -/
def pressButton (column : ℕ) (state : GameState) : GameState :=
  let activationStatus :=
    state.activeNotes.foldl (pressAccum column state.notesPlayed) (false, (state.points : ℚ))
  let updatedActiveNotes := state.activeNotes.map (pressNoteUpd column)
  let wrong := checkWrongPress column activationStatus.1 updatedActiveNotes
  { state with
    notesPlayed := if activationStatus.1 then state.notesPlayed + 1 else state.notesPlayed
    activeNotes := updatedActiveNotes
    randomSeed := RNG.hash state.randomSeed
    expiredNotes := state.activeNotes
    points := jsTrunc activationStatus.2
    readyNotes := if wrong then state.readyNotes ++ [incorrectNote state.randomSeed]
      else state.readyNotes }

/-- The held-tail test of `ReleaseButton.execute`: an active (not yet
inactive) tail on an already resolved note of the column. -/
def releaseMatch (column : ℕ) (note : MusicalNote) : Bool :=
  note.tail.isSome && (note.column == column) && !note.visible &&
    !((note.tail.map TailInfo.inactive).getD false)

/-- Accumulator of the penalty `reduce` in `ReleaseButton.execute`. -/
def releaseAccum (column : ℕ) (notesPlayed : ℕ) (acc : ℚ) (note : MusicalNote) : ℚ :=
  if releaseMatch column note then acc - multiplier notesPlayed else acc

/-- The per-note tail update of `ReleaseButton.execute`. -/
def releaseNoteUpd (column : ℕ) (note : MusicalNote) : MusicalNote :=
  if releaseMatch column note then
    { note with tail := note.tail.map (fun tl => { tl with inactive := true }) }
  else note

/-- `ReleaseButton.execute` from `main.ts`. -/
def releaseButton (column : ℕ) (state : GameState) : GameState :=
  let updatedPoints :=
    state.activeNotes.foldl (releaseAccum column state.notesPlayed) ((state.points : ℤ) : ℚ)
  { state with
    activeNotes := state.activeNotes.map (releaseNoteUpd column)
    points := jsTrunc updatedPoints
    expiredNotes := state.activeNotes }

/-- The tail-attachment decision of `AddNextNote.execute`: a visible note
longer than 1000 ms gets a fresh tail spanning `duration / RATE` above its
current position; every other note gets `tail := none`. -/
def tailDecide (note : MusicalNote) : MusicalNote :=
  let duration := note.endTime - note.startTime
  if note.visible ∧ duration > 1000 then
    { note with
        tail := some { start := note.yPos - duration / GameSettings.RATE,
                       end_ := note.yPos, inactive := false } }
  else { note with tail := none }

/-- The five action kinds of the reducer (`GameAction` implementations in
`main.ts`): `GameTick`, `PressButton`, `ReleaseButton`, `AddNextNote`,
`EndGame`. -/
inductive GameAction where
  | tick
  | press (column : ℕ)
  | release (column : ℕ)
  | addNotes (group : List MusicalNote)
  | endGame
deriving DecidableEq, Repr

/-- `applyGameAction` from `main.ts`: `action.execute(state)`. -/
def applyGameAction (state : GameState) (action : GameAction) : GameState :=
  match action with
  | .tick => { advanceTick state with tickCount := state.tickCount + 1 }
  | .press column => pressButton column state
  | .release column => releaseButton column state
  | .addNotes group =>
      advanceTick { state with
        randomSeed := RNG.hash state.randomSeed
        activeNotes := state.activeNotes ++ group.map tailDecide }
  | .endGame => advanceTick { state with allNotesFinished := true }

/-- `defaultState` from `main.ts`. -/
def defaultState : GameState :=
  { isGameOver := false, allNotesFinished := false, tickCount := 0,
    randomSeed := RNG.hash 3847589, notesPlayed := 0, points := 0,
    activeNotes := [], expiredNotes := [], readyNotes := [] }

/-- Folding an action list onto `defaultState`, as the `scan` in `main.ts`. -/
def runActions (actions : List GameAction) : GameState :=
  actions.foldl applyGameAction defaultState

/-- A state is reachable when some action sequence produces it from
`defaultState`. -/
def Reachable (state : GameState) : Prop :=
  ∃ actions : List GameAction, state = runActions actions

/-- The per-note evolution each action applies to the notes already in
`activeNotes`: the tick update for `Tick`, `AddNoteGroup` and `EndOfSong`
(each of which runs `advanceTick`), and the total per-note maps of
`PressColumn` / `ReleaseColumn`. -/
def noteStep (action : GameAction) : MusicalNote → Option MusicalNote :=
  match action with
  | .tick | .endGame | .addNotes _ => tickNoteStep
  | .press column => fun note => some (pressNoteUpd column note)
  | .release column => fun note => some (releaseNoteUpd column note)

/-- The notes an action appends to `activeNotes` beyond the evolution of
the pre-transition ones: only `AddNoteGroup` spawns notes (tail-decided,
then ticked once). -/
def spawnedNotes (action : GameAction) : List MusicalNote :=
  match action with
  | .addNotes group => (group.map tailDecide).filterMap tickNoteStep
  | _ => []

/-- Invariant: an active note whose tail is already inactive is resolved
(`visible = false`). -/
def TailInvariant (state : GameState) : Prop :=
  ∀ note ∈ state.activeNotes, ∀ tl, note.tail = some tl →
    tl.inactive = true → note.visible = false

/-- The grouping step of `scheduleNotes` in `main.ts`: the source folds
into a `Record` keyed by `startTime`, appending to an existing key's group
or inserting a new key.  Key order is modelled as insertion order, which
on the chronologically sorted inputs the scheduler receives coincides with
the runtime's numeric key order (and with the emission order of the rxjs
`groupBy` pipeline that actually drives the game). -/
def insGroup (groups : List (ℚ × List MusicalNote)) (note : MusicalNote) :
    List (ℚ × List MusicalNote) :=
  if groups.any fun p => decide (p.1 = note.startTime) then
    groups.map fun p => if p.1 = note.startTime then (p.1, p.2 ++ [note]) else p
  else groups ++ [(note.startTime, [note])]

/-- `scheduleNotes` from `main.ts`: group a note list by `startTime`. -/
def scheduleNotes (notes : List MusicalNote) : List (List MusicalNote) :=
  (notes.foldl insGroup []).map Prod.snd

/-- `ScheduledNotes` from `main.ts`. -/
structure ScheduledNotes where
  delay : ℚ
  startTime : Option ℚ
  group : List MusicalNote
deriving DecidableEq, Repr

/-- `currentNote[0].startTime` of `delayNotes$` (total here; the scheduler
never passes an empty group). -/
def headStartTime (group : List MusicalNote) : ℚ :=
  ((group.head?).map MusicalNote.startTime).getD 0

/-- `delayNotes$` from `main.ts` as a pure scan: threads the previous
group's start time (`null` initially unless an initial start time is
supplied) and emits each group with its relative delay. -/
def delayNotes (stored : Option ℚ) : List (List MusicalNote) → List ScheduledNotes
  | [] => []
  | group :: rest =>
      let st := headStartTime group
      { delay := match stored with
          | none => 0
          | some t => st - t
        startTime := some st
        group := group } :: delayNotes (some st) rest

/-- Modelled from the spec: accumulate one maximal run of notes sharing
the startTime `key`, then start the next run. -/
def consumeRun (key : ℚ) (current : List MusicalNote) :
    List MusicalNote → List (List MusicalNote)
  | [] => [current]
  | note :: rest =>
      if note.startTime = key then consumeRun key (current ++ [note]) rest
      else current :: consumeRun note.startTime [note] rest

/-- Modelled from the spec (§4.2): the groups are the maximal runs of
consecutive notes sharing an identical `startTime`. -/
def specGroupRuns : List MusicalNote → List (List MusicalNote)
  | [] => []
  | note :: rest => consumeRun note.startTime [note] rest

/-- A background note used by concrete counterexamples. -/
def noteA : MusicalNote :=
  { id := 1, visible := false, yPos := 0, column := 0, instrument := "", volume := 0,
    pitch := 0, startTime := 0, endTime := 0, tail := none }

/-- A resolved long note whose tail is still draining, used to refute C4. -/
def drainingNote : MusicalNote :=
  { id := 2, visible := false, yPos := 350, column := 0, instrument := "", volume := 0,
    pitch := 0, startTime := 0, endTime := 0,
    tail := some { start := 200, end_ := 350, inactive := false } }

/-- `drainingNote` after one tick. -/
def drainingNote1 : MusicalNote :=
  { drainingNote with yPos := 351, tail := some { start := 201, end_ := 350, inactive := false } }

/-- `drainingNote` after two ticks. -/
def drainingNote2 : MusicalNote :=
  { drainingNote with yPos := 352, tail := some { start := 202, end_ := 350, inactive := false } }

/-- A state holding only the draining note. -/
def stateDraining : GameState :=
  { defaultState with activeNotes := [drainingNote] }

/-- A plain falling note used by witnesses. -/
def plainNote : MusicalNote :=
  { id := 3, visible := true, yPos := 10, column := 0, instrument := "", volume := 0,
    pitch := 0, startTime := 0, endTime := 0, tail := none }

/-- `plainNote` after one tick. -/
def plainNote11 : MusicalNote :=
  { plainNote with yPos := 11 }

/-- A state holding only the plain falling note. -/
def stateOnePlain : GameState :=
  { defaultState with activeNotes := [plainNote] }

/-- A note sitting in the hit window of column 0. -/
def hitNote : MusicalNote :=
  { id := 4, visible := true, yPos := 320, column := 0, instrument := "", volume := 0,
    pitch := 0, startTime := 0, endTime := 0, tail := none }

/-- Witness state for C2: a single hittable note. -/
def stateSingleHit : GameState :=
  { defaultState with activeNotes := [hitNote] }

/-- Counterexample state for C2: two hittable notes in the same column. -/
def stateDoubleHit : GameState :=
  { defaultState with activeNotes := [hitNote, { hitNote with id := 5 }] }

/-- A resolved note of column 0 whose tail is still active (mid-hold). -/
def heldNote : MusicalNote :=
  { id := 6, visible := false, yPos := 340, column := 0, instrument := "", volume := 0,
    pitch := 0, startTime := 0, endTime := 2000,
    tail := some { start := 100, end_ := 350, inactive := false } }

/-- Witness state for C6: one mid-hold note and five points. -/
def stateHeld : GameState :=
  { defaultState with activeNotes := [heldNote], points := 5 }

/-- A resolved note of column 0 whose tail is already inactive. -/
def inactiveTailNote : MusicalNote :=
  { id := 7, visible := false, yPos := 100, column := 0, instrument := "", volume := 0,
    pitch := 0, startTime := 0, endTime := 0,
    tail := some { start := 50, end_ := 350, inactive := true } }

/-- Counterexample state for C7: only a resolved note whose tail is
inactive (so per the claim this would be a genuinely wrong press). -/
def stateInactiveTail : GameState :=
  { defaultState with activeNotes := [inactiveTailNote] }

/-- A long (1401 ms) visible note close to the bottom row. -/
def longNote : MusicalNote :=
  { id := 8, visible := true, yPos := 348, column := 0, instrument := "", volume := 0,
    pitch := 0, startTime := 0, endTime := 1401, tail := none }

/-- `longNote` after tail attachment and the internal tick of
`AddNoteGroup`. -/
def longNoteTicked1 : MusicalNote :=
  { longNote with
      yPos := 349
      tail := some { start := 1042 / 7, end_ := 349, inactive := false } }

/-- `longNoteTicked1` after one more tick: the tail end reaches the bottom
row, the note resolves and its tail becomes inactive. -/
def longNoteResolved : MusicalNote :=
  { longNote with
      visible := false
      yPos := 350
      tail := some { start := 1049 / 7, end_ := 350, inactive := true } }

/-- `longNoteResolved` after one more tick: still draining, still
inactive. -/
def longNoteDrained : MusicalNote :=
  { longNote with
      visible := false
      yPos := 351
      tail := some { start := 1056 / 7, end_ := 350, inactive := true } }

/-- A reachable state holding a note with an inactive tail. -/
def stateResolvedTail : GameState :=
  runActions [.addNotes [longNote], .tick]

/-- A minimal note with a given id and start time, for scheduler tests. -/
def schedNote (i : ℕ) (t : ℚ) : MusicalNote :=
  { id := i, visible := true, yPos := 0, column := 0, instrument := "", volume := 0,
    pitch := 0, startTime := t, endTime := t, tail := none }

/-- The note list with start times `[0, 0, 500, 500, 500]` from the
spec's scheduler test. -/
def fiveNotes : List MusicalNote :=
  [schedNote 1 0, schedNote 2 0, schedNote 3 500, schedNote 4 500, schedNote 5 500]

/-- C9 (amended): `hash` is the deterministic map
`seed ↦ (1103515245 * seed + 12345) mod 2^31`; for every input below
`2^31`, `scale`'s output lies in the closed interval `[0, 1]`, and lies in
`[0, 1)` exactly when the input is below `2^31 - 1`. -/
theorem c9_hash_deterministic_scale_range :
    (∀ seed : ℕ, RNG.hash seed = (1103515245 * seed + 12345) % 2 ^ 31) ∧
    (∀ s t : ℕ, s = t → RNG.hash s = RNG.hash t) ∧
    (∀ h : ℕ, h < 2 ^ 31 →
      0 ≤ RNG.scale h ∧ RNG.scale h ≤ 1 ∧ (h < 2 ^ 31 - 1 → RNG.scale h < 1)) := by
  refine ⟨fun seed => rfl, fun s t hst => by rw [hst], fun h hlt => ?_⟩
  have hs : RNG.scale h = (h : ℚ) / (2 ^ 31 - 1) := by
    unfold RNG.scale RNG.modulus
    ring
  have hden : (0 : ℚ) < 2 ^ 31 - 1 := by norm_num
  refine ⟨?_, ?_, ?_⟩
  · rw [hs]
    exact div_nonneg (Nat.cast_nonneg h) (le_of_lt hden)
  · rw [hs, div_le_one hden]
    have : (h : ℚ) ≤ ((2 ^ 31 - 1 : ℕ) : ℚ) := by
      exact_mod_cast Nat.le_sub_one_of_lt hlt
    calc (h : ℚ) ≤ ((2 ^ 31 - 1 : ℕ) : ℚ) := this
      _ = 2 ^ 31 - 1 := by norm_num
  · intro hlt'
    rw [hs, div_lt_one hden]
    have : (h : ℚ) < ((2 ^ 31 - 1 : ℕ) : ℚ) := by exact_mod_cast hlt'
    calc (h : ℚ) < ((2 ^ 31 - 1 : ℕ) : ℚ) := this
      _ = 2 ^ 31 - 1 := by norm_num

/-- Witness for C9 at the concrete input 5. -/
theorem c9_hash_deterministic_scale_range_at_five :
    0 ≤ RNG.scale 5 ∧ RNG.scale 5 ≤ 1 ∧ (5 < 2 ^ 31 - 1 → RNG.scale 5 < 1) :=
  c9_hash_deterministic_scale_range.2.2 5 (by norm_num)

/-- C9 counterexample: `scale` maps `2^31 - 1` to exactly `1`, which is
not in `[0, 1)`; and `2^31 - 1` is an actual `hash` output (of the seed
`230538014`), so the excluded endpoint is attained on reachable seeds. -/
theorem c9_scale_reaches_one :
    RNG.hash 230538014 = 2 ^ 31 - 1 ∧ RNG.scale (2 ^ 31 - 1) = 1 ∧
      ¬ RNG.scale (2 ^ 31 - 1) < 1 := by
  have h1 : RNG.hash 230538014 = 2 ^ 31 - 1 := by decide
  have h2 : RNG.scale (2 ^ 31 - 1) = 1 := by
    unfold RNG.scale RNG.modulus
    norm_num
  exact ⟨h1, h2, by rw [h2]; exact lt_irrefl 1⟩

/-- The accumulating `reduce` of `advanceTick` computes the two
`filterMap`s of the per-note update. -/
theorem foldl_noteAccum (l : List MusicalNote) :
    ∀ a b : List MusicalNote,
      l.foldl noteAccum (a, b) =
        (a ++ l.filterMap tickNoteStep, b ++ l.filterMap tickNoteReady) := by
  induction l with
  | nil => intro a b; simp
  | cons n t ih =>
      intro a b
      have hstep : ∀ x : List MusicalNote × List MusicalNote,
          noteAccum x n = (x.1 ++ (tickNoteStep n).toList, x.2 ++ (tickNoteReady n).toList) := by
        intro x
        cases h1 : (calcPositionForGame n).1 <;> cases h2 : (calcPositionForGame n).2 <;>
          simp [noteAccum, tickNoteStep, tickNoteReady, h1, h2]
      rw [List.foldl_cons, hstep, ih]
      cases h1 : tickNoteStep n <;> cases h2 : tickNoteReady n <;>
        simp [List.filterMap_cons, h1, h2]

theorem advanceTick_activeNotes (s : GameState) :
    (advanceTick s).activeNotes = s.activeNotes.filterMap tickNoteStep := by
  simp [advanceTick, foldl_noteAccum]

theorem advanceTick_readyNotes (s : GameState) :
    (advanceTick s).readyNotes = s.activeNotes.filterMap tickNoteReady := by
  simp [advanceTick, foldl_noteAccum]

theorem advanceTick_expiredNotes (s : GameState) :
    (advanceTick s).expiredNotes = s.activeNotes := by
  simp [advanceTick]

theorem advanceTick_notesPlayed (s : GameState) :
    (advanceTick s).notesPlayed = s.notesPlayed := by
  simp [advanceTick]

theorem advanceTick_allNotesFinished (s : GameState) :
    (advanceTick s).allNotesFinished = s.allNotesFinished := by
  simp [advanceTick]

theorem advanceTick_points (s : GameState) :
    (advanceTick s).points = s.points := by
  simp [advanceTick]

theorem advanceTick_isGameOver (s : GameState) :
    (advanceTick s).isGameOver =
      (s.allNotesFinished && decide ((s.activeNotes.filterMap tickNoteStep).length = 0) &&
        decide ((s.activeNotes.filterMap tickNoteReady).length = 0) &&
        decide (s.expiredNotes.length = 0)) := by
  simp [advanceTick, foldl_noteAccum]

/-- C1 (amended): after `Tick`, `AddNoteGroup` and `EndOfSong` the
post-transition `isGameOver` is true exactly when the post-transition
`allNotesFinished`, `activeNotes` and `readyNotes` conditions hold and the
**pre**-transition `expiredNotes` is empty (the source tests
`state.expiredNotes`, i.e. the previous snapshot, not the new one);
`PressColumn` and `ReleaseColumn` do not recompute the flag at all and
keep the pre-transition value. -/
theorem c1_game_over_flag (s : GameState) (a : GameAction) :
    ((applyGameAction s a).isGameOver = true ↔
      match a with
      | .press _ => s.isGameOver = true
      | .release _ => s.isGameOver = true
      | _ => (applyGameAction s a).allNotesFinished = true ∧
          (applyGameAction s a).activeNotes = [] ∧
          (applyGameAction s a).readyNotes = [] ∧ s.expiredNotes = []) := by
  cases a with
  | press column => simp [applyGameAction, pressButton]
  | release column => simp [applyGameAction, releaseButton]
  | tick =>
      simp [applyGameAction, advanceTick_isGameOver, advanceTick_activeNotes,
        advanceTick_readyNotes, advanceTick_allNotesFinished,
        Bool.and_eq_true, decide_eq_true_eq, List.length_eq_zero, and_assoc]
  | addNotes group =>
      simp [applyGameAction, advanceTick_isGameOver, advanceTick_activeNotes,
        advanceTick_readyNotes, advanceTick_allNotesFinished,
        Bool.and_eq_true, decide_eq_true_eq, List.length_eq_zero, and_assoc]
  | endGame =>
      simp [applyGameAction, advanceTick_isGameOver, advanceTick_activeNotes,
        advanceTick_readyNotes, advanceTick_allNotesFinished,
        Bool.and_eq_true, decide_eq_true_eq, List.length_eq_zero, and_assoc]

/-- C1 counterexample: from the reachable game-over state produced by
`EndOfSong` on the initial state, a `PressColumn 0` appends a filler note
to `readyNotes` while keeping `isGameOver = true`, so the claimed
"if and only if" fails on the post-transition collections. -/
theorem c1_game_over_flag_refuted :
    Reachable (runActions [GameAction.endGame]) ∧
    ¬(((applyGameAction (runActions [GameAction.endGame]) (.press 0)).isGameOver = true) ↔
      ((applyGameAction (runActions [GameAction.endGame]) (.press 0)).allNotesFinished = true ∧
        (applyGameAction (runActions [GameAction.endGame]) (.press 0)).activeNotes = [] ∧
        (applyGameAction (runActions [GameAction.endGame]) (.press 0)).readyNotes = [] ∧
        (applyGameAction (runActions [GameAction.endGame]) (.press 0)).expiredNotes = [])) :=
  ⟨⟨[GameAction.endGame], rfl⟩, by decide⟩

/-- C3 (amended): the post-transition `expiredNotes` is the entire note
collection handed to the internal tick: the pre-transition `activeNotes`
for `Tick`, `PressColumn`, `ReleaseColumn` and `EndOfSong`, but for
`AddNoteGroup` it is the pre-transition `activeNotes` *concatenated with
the tail-decided incoming group*. -/
theorem c3_expired_snapshot (s : GameState) (a : GameAction) :
    (applyGameAction s a).expiredNotes =
      match a with
      | .addNotes group => s.activeNotes ++ group.map tailDecide
      | _ => s.activeNotes := by
  cases a <;>
    simp [applyGameAction, pressButton, releaseButton, advanceTick_expiredNotes]

/-- C3 counterexample: delivering one note to the empty initial state
leaves the delivered (tail-decided) note in `expiredNotes`, which differs
from the pre-transition `activeNotes = []`. -/
theorem c3_expired_snapshot_refuted :
    (applyGameAction defaultState (.addNotes [noteA])).expiredNotes ≠
      defaultState.activeNotes := by
  decide

/-- Branch analysis of the per-note tick update: a surviving tailless note
is strictly above the bottom row, and a surviving tailed note either has
its tail head strictly above the bottom row or sits exactly on it. -/
theorem tickNoteStep_bounds (n n' : MusicalNote) (h : tickNoteStep n = some n') :
    (n'.tail = none → n'.yPos < GameSettings.LAST_ROW) ∧
    (∀ tl, n'.tail = some tl →
      tl.start < GameSettings.LAST_ROW ∨ n'.yPos = GameSettings.LAST_ROW) := by
  unfold tickNoteStep calcPositionForGame updateNoteYPos at h
  cases htl : n.tail with
  | some tl =>
      rw [htl] at h
      dsimp only at h
      split_ifs at h <;> simp at h <;> (try subst h) <;> simp_all
  | none =>
      rw [htl] at h
      dsimp only at h
      split_ifs at h <;> simp at h <;> (try subst h) <;> simp_all

/-- C4 (amended): repeated `Tick`s never produce an active **tailless**
note at or past `LAST_ROW` (its `yPos` stays strictly below the bottom
row), while an active note **with a tail** is only bounded through its
tail: its head `tail.start` is strictly below `LAST_ROW` unless the note
sits exactly on the bottom row — the note's own `yPos` may exceed
`LAST_ROW` by arbitrarily many increment steps while the tail drains. -/
theorem c4_tick_position_bounds (s : GameState) (k : ℕ) (n' : MusicalNote)
    (hmem : n' ∈ ((fun st => applyGameAction st .tick)^[k + 1] s).activeNotes) :
    (n'.tail = none → n'.yPos < GameSettings.LAST_ROW) ∧
    (∀ tl, n'.tail = some tl →
      tl.start < GameSettings.LAST_ROW ∨ n'.yPos = GameSettings.LAST_ROW) := by
  rw [Function.iterate_succ_apply'] at hmem
  have hact : (applyGameAction ((fun st => applyGameAction st .tick)^[k] s) .tick).activeNotes
      = (((fun st => applyGameAction st .tick)^[k] s).activeNotes).filterMap tickNoteStep := by
    simp [applyGameAction, advanceTick_activeNotes]
  rw [hact] at hmem
  obtain ⟨n, _, hstep⟩ := List.mem_filterMap.mp hmem
  exact tickNoteStep_bounds n n' hstep

theorem tick_stateDraining_one :
    (applyGameAction stateDraining .tick).activeNotes = [drainingNote1] := by
  have h : (applyGameAction stateDraining .tick).activeNotes =
      stateDraining.activeNotes.filterMap tickNoteStep := by
    simp [applyGameAction, advanceTick_activeNotes]
  rw [h]
  norm_num [stateDraining, defaultState, List.filterMap, tickNoteStep, calcPositionForGame,
    updateNoteYPos, drainingNote, drainingNote1, GameSettings.INCREMENT, GameSettings.LAST_ROW]

/-- C4 counterexample: two `Tick`s starting from a state holding a
resolved, draining tailed note leave an active note at
`yPos = 352 > LAST_ROW + INCREMENT`, exceeding the bottom row by more
than one increment step. -/
theorem c4_tick_position_bounds_refuted :
    ((applyGameAction (applyGameAction stateDraining .tick) .tick).activeNotes.any
      (fun n => decide (GameSettings.LAST_ROW + GameSettings.INCREMENT < n.yPos))) = true := by
  have h : (applyGameAction (applyGameAction stateDraining .tick) .tick).activeNotes =
      ((applyGameAction stateDraining .tick).activeNotes).filterMap tickNoteStep := by
    simp [applyGameAction, advanceTick_activeNotes]
  rw [h, tick_stateDraining_one]
  norm_num [List.filterMap, tickNoteStep, calcPositionForGame, updateNoteYPos, drainingNote,
    drainingNote1, GameSettings.INCREMENT, GameSettings.LAST_ROW, List.any_cons, List.any_nil,
    decide_eq_true_eq]

theorem tick_stateOnePlain :
    (applyGameAction stateOnePlain .tick).activeNotes = [plainNote11] := by
  have h : (applyGameAction stateOnePlain .tick).activeNotes =
      stateOnePlain.activeNotes.filterMap tickNoteStep := by
    simp [applyGameAction, advanceTick_activeNotes]
  rw [h]
  norm_num [stateOnePlain, defaultState, List.filterMap, tickNoteStep, calcPositionForGame,
    updateNoteYPos, plainNote, plainNote11, GameSettings.INCREMENT, GameSettings.LAST_ROW]

/-- Witness for C4 after one tick on a concrete state. -/
theorem c4_tick_position_bounds_witness :
    (plainNote11.tail = none → plainNote11.yPos < GameSettings.LAST_ROW) ∧
    (∀ tl, plainNote11.tail = some tl →
      tl.start < GameSettings.LAST_ROW ∨ plainNote11.yPos = GameSettings.LAST_ROW) :=
  c4_tick_position_bounds stateOnePlain 0 plainNote11 (by
    rw [Function.iterate_succ_apply', Function.iterate_zero_apply, tick_stateOnePlain]
    simp)

/-- The scoring `reduce` of `PressButton.execute` computes "was anything
hit" and adds one multiplier per matching note. -/
theorem foldl_pressAccum (c np : ℕ) (l : List MusicalNote) :
    ∀ (b : Bool) (q : ℚ),
      l.foldl (pressAccum c np) (b, q) =
        ((b || l.any (pressMatch c)),
          q + (l.countP (pressMatch c) : ℚ) * multiplier np) := by
  induction l with
  | nil => intro b q; simp
  | cons n t ih =>
      intro b q
      rw [List.foldl_cons]
      cases hm : pressMatch c n with
      | true =>
          have hstep : pressAccum c np (b, q) n = (true, q + multiplier np) := by
            simp [pressAccum, hm]
          rw [hstep, ih]
          refine Prod.ext ?_ ?_
          · simp [hm]
          · simp only [List.countP_cons, hm, if_pos]
            push_cast
            ring
      | false =>
          have hstep : pressAccum c np (b, q) n = (b, q) := by
            simp [pressAccum, hm]
          rw [hstep, ih]
          refine Prod.ext ?_ ?_
          · simp [hm]
          · simp [List.countP_cons, hm]

theorem pressButton_points (c : ℕ) (s : GameState) :
    (pressButton c s).points =
      jsTrunc ((s.points : ℚ) +
        (s.activeNotes.countP (pressMatch c) : ℚ) * multiplier s.notesPlayed) := by
  simp [pressButton, foldl_pressAccum]

theorem pressButton_notesPlayed (c : ℕ) (s : GameState) :
    (pressButton c s).notesPlayed =
      if s.activeNotes.any (pressMatch c) then s.notesPlayed + 1 else s.notesPlayed := by
  simp [pressButton, foldl_pressAccum]

theorem pressButton_activeNotes (c : ℕ) (s : GameState) :
    (pressButton c s).activeNotes = s.activeNotes.map (pressNoteUpd c) := by
  simp [pressButton]

/-- C2 (amended): when `k ≥ 1` notes of column `c` sit in the hit window,
`PressColumn c` marks all of them invisible, increments `notesPlayed` by
exactly 1, and writes back
`trunc(points + k * (1 + 0.2 * floor(notesPlayed / 10)))` — one multiplier
is added **per matching note**, not once, with the multiplier taken from
`notesPlayed` before the increment and the sum truncated toward zero. -/
theorem c2_press_hit (s : GameState) (c : ℕ)
    (hk : 1 ≤ s.activeNotes.countP (pressMatch c)) :
    (applyGameAction s (.press c)).notesPlayed = s.notesPlayed + 1 ∧
    (applyGameAction s (.press c)).points =
      jsTrunc ((s.points : ℚ) +
        (s.activeNotes.countP (pressMatch c) : ℚ) * multiplier s.notesPlayed) ∧
    (applyGameAction s (.press c)).activeNotes = s.activeNotes.map (pressNoteUpd c) ∧
    (∀ n, pressMatch c n = true → (pressNoteUpd c n).visible = false) := by
  have hany : s.activeNotes.any (pressMatch c) = true := by
    rw [List.any_eq_true]
    obtain ⟨n, hn, hp⟩ := List.countP_pos_iff.mp (Nat.lt_of_lt_of_le Nat.zero_lt_one hk)
    exact ⟨n, hn, hp⟩
  refine ⟨?_, ?_, ?_, ?_⟩
  · show (pressButton c s).notesPlayed = s.notesPlayed + 1
    rw [pressButton_notesPlayed, hany]
    rfl
  · exact pressButton_points c s
  · exact pressButton_activeNotes c s
  · intro n hp
    simp [pressNoteUpd, hp]

theorem countP_stateSingleHit :
    stateSingleHit.activeNotes.countP (pressMatch 0) = 1 := by
  norm_num [stateSingleHit, defaultState, hitNote, pressMatch, List.countP_cons,
    List.countP_nil, GameSettings.LAST_ROW, GameSettings.THRESHOLD, decide_eq_true_eq]

/-- Witness for C2 on a concrete single-hit state. -/
theorem c2_press_hit_witness :
    (applyGameAction stateSingleHit (.press 0)).notesPlayed = stateSingleHit.notesPlayed + 1 ∧
    (applyGameAction stateSingleHit (.press 0)).points =
      jsTrunc ((stateSingleHit.points : ℚ) +
        (stateSingleHit.activeNotes.countP (pressMatch 0) : ℚ) *
          multiplier stateSingleHit.notesPlayed) ∧
    (applyGameAction stateSingleHit (.press 0)).activeNotes =
      stateSingleHit.activeNotes.map (pressNoteUpd 0) ∧
    (∀ n, pressMatch 0 n = true → (pressNoteUpd 0 n).visible = false) :=
  c2_press_hit stateSingleHit 0 (by rw [countP_stateSingleHit])

theorem jsTrunc_intCast (n : ℤ) : jsTrunc ((n : ℤ) : ℚ) = n := by
  unfold jsTrunc
  split_ifs with h
  · exact Int.ceil_intCast n
  · exact Int.floor_intCast n

theorem multiplier_zero : multiplier 0 = 1 := by
  norm_num [multiplier]

theorem countP_stateDoubleHit :
    stateDoubleHit.activeNotes.countP (pressMatch 0) = 2 := by
  norm_num [stateDoubleHit, defaultState, hitNote, pressMatch, List.countP_cons,
    List.countP_nil, GameSettings.LAST_ROW, GameSettings.THRESHOLD, decide_eq_true_eq]

theorem press_stateDoubleHit_points :
    (applyGameAction stateDoubleHit (.press 0)).points = 2 := by
  rw [show applyGameAction stateDoubleHit (.press 0) = pressButton 0 stateDoubleHit from rfl,
    pressButton_points, countP_stateDoubleHit]
  have h : ((stateDoubleHit.points : ℚ) + ((2 : ℕ) : ℚ) * multiplier stateDoubleHit.notesPlayed)
      = ((2 : ℤ) : ℚ) := by
    norm_num [stateDoubleHit, defaultState, multiplier]
  rw [h, jsTrunc_intCast]

/-- C2 counterexample: with two window notes in column 0 and
`notesPlayed = 0`, the press awards 2 points, not the claimed
`floor(1 + 0.2 * floor(0 / 10)) = 1`. -/
theorem c2_press_hit_refuted :
    stateDoubleHit.points = 0 ∧ stateDoubleHit.notesPlayed = 0 ∧
    (applyGameAction stateDoubleHit (.press 0)).points = 2 ∧
    (applyGameAction stateDoubleHit (.press 0)).points ≠
      stateDoubleHit.points + jsTrunc (multiplier stateDoubleHit.notesPlayed) := by
  refine ⟨rfl, rfl, press_stateDoubleHit_points, ?_⟩
  rw [press_stateDoubleHit_points]
  have h : jsTrunc (multiplier stateDoubleHit.notesPlayed) = ((1 : ℤ) : ℤ) := by
    have h1 : multiplier stateDoubleHit.notesPlayed = ((1 : ℤ) : ℚ) := by
      norm_num [stateDoubleHit, defaultState, multiplier]
    rw [h1, jsTrunc_intCast]
  rw [h]
  norm_num [stateDoubleHit, defaultState]

/-- The penalty `reduce` of `ReleaseButton.execute` subtracts one
multiplier per held-tail note of the column. -/
theorem foldl_releaseAccum (c np : ℕ) (l : List MusicalNote) :
    ∀ q : ℚ, l.foldl (releaseAccum c np) q =
      q - (l.countP (releaseMatch c) : ℚ) * multiplier np := by
  induction l with
  | nil => intro q; simp
  | cons n t ih =>
      intro q
      rw [List.foldl_cons]
      cases hm : releaseMatch c n with
      | true =>
          have hstep : releaseAccum c np q n = q - multiplier np := by
            simp [releaseAccum, hm]
          rw [hstep, ih]
          simp only [List.countP_cons, hm, if_pos]
          push_cast
          ring
      | false =>
          have hstep : releaseAccum c np q n = q := by
            simp [releaseAccum, hm]
          rw [hstep, ih, List.countP_cons]
          simp [hm]

theorem releaseButton_points (c : ℕ) (s : GameState) :
    (releaseButton c s).points =
      jsTrunc ((s.points : ℚ) -
        (s.activeNotes.countP (releaseMatch c) : ℚ) * multiplier s.notesPlayed) := by
  simp [releaseButton, foldl_releaseAccum]

theorem releaseButton_activeNotes (c : ℕ) (s : GameState) :
    (releaseButton c s).activeNotes = s.activeNotes.map (releaseNoteUpd c) := by
  simp [releaseButton]

/-- C6 (confirmed): `ReleaseColumn c` keeps `notesPlayed`, subtracts one
multiplier `1 + 0.2 * floor(notesPlayed / 10)` per active note of column
`c` that is resolved and holds a not-yet-inactive tail (truncating toward
zero at write-back), marks each such tail inactive, and when no such note
exists it leaves both `points` and `activeNotes` unchanged. -/
theorem c6_release_penalty (s : GameState) (c : ℕ) :
    (applyGameAction s (.release c)).points =
      jsTrunc ((s.points : ℚ) -
        (s.activeNotes.countP (releaseMatch c) : ℚ) * multiplier s.notesPlayed) ∧
    (applyGameAction s (.release c)).notesPlayed = s.notesPlayed ∧
    (applyGameAction s (.release c)).activeNotes = s.activeNotes.map (releaseNoteUpd c) ∧
    (∀ n, releaseMatch c n = true →
      ∃ tl, n.tail = some tl ∧
        (releaseNoteUpd c n).tail = some { tl with inactive := true }) ∧
    ((∀ n ∈ s.activeNotes, releaseMatch c n = false) →
      (applyGameAction s (.release c)).points = s.points ∧
      (applyGameAction s (.release c)).activeNotes = s.activeNotes) := by
  refine ⟨releaseButton_points c s, by simp [applyGameAction, releaseButton],
    releaseButton_activeNotes c s, ?_, ?_⟩
  · intro n hm
    have hsome : n.tail.isSome = true := by
      have := hm
      unfold releaseMatch at this
      simp only [Bool.and_eq_true] at this
      exact this.1.1.1
    obtain ⟨tl, htl⟩ := Option.isSome_iff_exists.mp hsome
    refine ⟨tl, htl, ?_⟩
    unfold releaseNoteUpd
    rw [if_pos hm, htl]
    rfl
  · intro hnone
    have hcount : s.activeNotes.countP (releaseMatch c) = 0 := by
      rw [List.countP_eq_zero]
      intro n hn
      simp [hnone n hn]
    constructor
    · show (releaseButton c s).points = s.points
      rw [releaseButton_points c s, hcount]
      have h : ((s.points : ℚ) - ((0 : ℕ) : ℚ) * multiplier s.notesPlayed)
          = ((s.points : ℤ) : ℚ) := by push_cast; ring
      rw [h, jsTrunc_intCast]
    · show (releaseButton c s).activeNotes = s.activeNotes
      rw [releaseButton_activeNotes c s]
      have h : ∀ n ∈ s.activeNotes, releaseNoteUpd c n = n := by
        intro n hn
        unfold releaseNoteUpd
        rw [if_neg (by simp [hnone n hn])]
      calc s.activeNotes.map (releaseNoteUpd c) = s.activeNotes.map id :=
            List.map_congr_left h
        _ = s.activeNotes := List.map_id s.activeNotes

/-- Witness for C6: the penalty branch on `stateHeld` and the no-op branch
on a state with no held tail. -/
theorem c6_release_penalty_witness :
    (applyGameAction stateHeld (.release 0)).points =
      jsTrunc ((stateHeld.points : ℚ) -
        (stateHeld.activeNotes.countP (releaseMatch 0) : ℚ) *
          multiplier stateHeld.notesPlayed) ∧
    (applyGameAction stateHeld (.release 0)).notesPlayed = stateHeld.notesPlayed ∧
    ((applyGameAction stateOnePlain (.release 0)).points = stateOnePlain.points ∧
      (applyGameAction stateOnePlain (.release 0)).activeNotes = stateOnePlain.activeNotes) :=
  ⟨(c6_release_penalty stateHeld 0).1, (c6_release_penalty stateHeld 0).2.1,
    (c6_release_penalty stateOnePlain 0).2.2.2.2 (by
      intro n hn
      simp only [stateOnePlain, List.mem_singleton] at hn
      subst hn
      simp [releaseMatch, plainNote])⟩

theorem pressButton_randomSeed (c : ℕ) (s : GameState) :
    (pressButton c s).randomSeed = RNG.hash s.randomSeed := by
  simp [pressButton]

theorem pressButton_readyNotes (c : ℕ) (s : GameState) :
    (pressButton c s).readyNotes =
      (if checkWrongPress c (s.activeNotes.any (pressMatch c))
          (s.activeNotes.map (pressNoteUpd c)) = true
        then s.readyNotes ++ [incorrectNote s.randomSeed] else s.readyNotes) := by
  simp [pressButton, foldl_pressAccum]

/-- C7 (amended): the wrong-press test requires that no resolved note of
the column carries **any** tail (whether or not the tail is already
inactive — the source checks only `tail !== undefined`); on a wrong press
the points are unchanged and exactly one filler note is appended, whose
randomized fields (instrument index, volume, pitch, duration) are all
scaled from the **single** value `scale(randomSeed)` — the seed itself is
not advanced between the four fields — and the stored seed is hashed
exactly once regardless of hit or miss. -/
theorem c7_wrong_press (s : GameState) (c : ℕ) :
    (applyGameAction s (.press c)).randomSeed = RNG.hash s.randomSeed ∧
    (applyGameAction s (.press c)).readyNotes =
      (if checkWrongPress c (s.activeNotes.any (pressMatch c))
          (s.activeNotes.map (pressNoteUpd c)) = true
        then s.readyNotes ++ [incorrectNote s.randomSeed] else s.readyNotes) ∧
    ((s.activeNotes.any (pressMatch c)) = false →
      (applyGameAction s (.press c)).points = s.points) ∧
    (incorrectNote s.randomSeed).volume =
      ((jsTrunc (RNG.scale s.randomSeed * 90) : ℤ) : ℚ) ∧
    (incorrectNote s.randomSeed).pitch =
      ((jsTrunc (RNG.scale s.randomSeed * 70) : ℤ) : ℚ) ∧
    (incorrectNote s.randomSeed).endTime =
      ((jsTrunc (RNG.scale s.randomSeed * 500) : ℤ) : ℚ) := by
  refine ⟨pressButton_randomSeed c s, pressButton_readyNotes c s, ?_, rfl, rfl, rfl⟩
  intro hnone
  have hcount : s.activeNotes.countP (pressMatch c) = 0 := by
    rw [List.countP_eq_zero]
    intro n hn
    have := List.any_eq_false.mp hnone n hn
    simp_all
  show (pressButton c s).points = s.points
  rw [pressButton_points, hcount]
  have h : ((s.points : ℚ) + ((0 : ℕ) : ℚ) * multiplier s.notesPlayed)
      = ((s.points : ℤ) : ℚ) := by push_cast; ring
  rw [h, jsTrunc_intCast]

/-- C7 counterexample: on `stateInactiveTail` the press hits nothing and
the only note's tail is already inactive — by the claim this is a
genuinely wrong press that must append a filler note — yet the reducer
appends nothing, because its test also counts notes with inactive tails. -/
theorem c7_wrong_press_refuted :
    (∀ n ∈ stateInactiveTail.activeNotes, pressMatch 0 n = false) ∧
    (∀ n ∈ stateInactiveTail.activeNotes, releaseMatch 0 n = false) ∧
    stateInactiveTail.readyNotes = [] ∧
    (applyGameAction stateInactiveTail (.press 0)).readyNotes = [] := by
  refine ⟨?_, ?_, rfl, ?_⟩
  · intro n hn
    simp only [stateInactiveTail, List.mem_singleton] at hn
    subst hn
    simp [pressMatch, inactiveTailNote]
  · intro n hn
    simp only [stateInactiveTail, List.mem_singleton] at hn
    subst hn
    simp [releaseMatch, inactiveTailNote]
  · show (pressButton 0 stateInactiveTail).readyNotes = []
    rw [pressButton_readyNotes]
    rw [if_neg]
    · rfl
    · norm_num [checkWrongPress, stateInactiveTail, defaultState, inactiveTailNote,
        pressNoteUpd, pressMatch, List.any_cons, List.any_nil, List.filter,
        GameSettings.LAST_ROW, GameSettings.THRESHOLD]

/-- Witness for C7: a wrong press on a state with one far-away visible
note appends the filler note and leaves points unchanged. -/
theorem c7_wrong_press_witness :
    (applyGameAction stateOnePlain (.press 0)).randomSeed =
      RNG.hash stateOnePlain.randomSeed ∧
    (applyGameAction stateOnePlain (.press 0)).points = stateOnePlain.points :=
  ⟨(c7_wrong_press stateOnePlain 0).1,
    (c7_wrong_press stateOnePlain 0).2.2.1 (by
      norm_num [stateOnePlain, defaultState, plainNote, pressMatch, List.any_cons,
        List.any_nil, GameSettings.LAST_ROW, GameSettings.THRESHOLD])⟩

/-- `filterMap` by a total function is `map`. -/
theorem filterMap_some_fn {α β : Type} (f : α → β) (l : List α) :
    l.filterMap (fun x => some (f x)) = l.map f := by
  induction l with
  | nil => rfl
  | cons a t ih => simp [List.filterMap_cons, ih]

/-- Every action's post-transition `activeNotes` is the per-note evolution
of the pre-transition ones followed by the notes it spawns. -/
theorem applyGameAction_activeNotes (s : GameState) (a : GameAction) :
    (applyGameAction s a).activeNotes =
      s.activeNotes.filterMap (noteStep a) ++ spawnedNotes a := by
  cases a with
  | tick =>
      simp [applyGameAction, advanceTick_activeNotes, noteStep, spawnedNotes]
  | endGame =>
      simp [applyGameAction, advanceTick_activeNotes, noteStep, spawnedNotes]
  | addNotes group =>
      simp [applyGameAction, advanceTick_activeNotes, noteStep, spawnedNotes,
        List.filterMap_append]
  | press column =>
      simp [applyGameAction, pressButton_activeNotes, noteStep, spawnedNotes,
        filterMap_some_fn]
  | release column =>
      simp [applyGameAction, releaseButton_activeNotes, noteStep, spawnedNotes,
        filterMap_some_fn]

/-- The tick update keeps the presence of a tail unchanged. -/
theorem tickNoteStep_tail_isSome (n n' : MusicalNote) (h : tickNoteStep n = some n') :
    n'.tail.isSome = n.tail.isSome := by
  unfold tickNoteStep calcPositionForGame updateNoteYPos at h
  cases htl : n.tail with
  | some tl =>
      rw [htl] at h
      dsimp only at h
      split_ifs at h <;> simp at h <;> (try subst h) <;> simp_all
  | none =>
      rw [htl] at h
      dsimp only at h
      split_ifs at h <;> simp at h <;> (try subst h) <;> simp_all

/-- On a resolved note, the tick update keeps an inactive tail inactive. -/
theorem tickNoteStep_tail_inactive (n n' : MusicalNote) (hvis : n.visible = false)
    (tl : TailInfo) (htl : n.tail = some tl) (hin : tl.inactive = true)
    (h : tickNoteStep n = some n') :
    ∃ tl', n'.tail = some tl' ∧ tl'.inactive = true := by
  unfold tickNoteStep calcPositionForGame updateNoteYPos at h
  rw [htl, hvis] at h
  dsimp only at h
  split_ifs at h <;> simp at h <;> (try subst h) <;> simp_all

/-- Any note surviving a tick satisfies the tail invariant. -/
theorem tickNoteStep_tailInv (n n' : MusicalNote) (h : tickNoteStep n = some n') :
    ∀ tl', n'.tail = some tl' → tl'.inactive = true → n'.visible = false := by
  unfold tickNoteStep calcPositionForGame updateNoteYPos at h
  cases htl : n.tail with
  | some tl =>
      rw [htl] at h
      dsimp only at h
      split_ifs at h <;> simp at h <;> (try subst h) <;> simp_all
  | none =>
      rw [htl] at h
      dsimp only at h
      split_ifs at h <;> simp at h <;> (try subst h) <;> simp_all

/-- `advanceTick` establishes the tail invariant unconditionally. -/
theorem advanceTick_tailInv (s : GameState) : TailInvariant (advanceTick s) := by
  intro n' hn' tl' htl' hin'
  rw [advanceTick_activeNotes] at hn'
  obtain ⟨n, _, hstep⟩ := List.mem_filterMap.mp hn'
  exact tickNoteStep_tailInv n n' hstep tl' htl' hin'

/-- Every action preserves the tail invariant. -/
theorem applyGameAction_tailInv (s : GameState) (a : GameAction)
    (hs : TailInvariant s) : TailInvariant (applyGameAction s a) := by
  cases a with
  | tick =>
      intro n' hn' tl' htl' hin'
      have h : (applyGameAction s .tick).activeNotes = (advanceTick s).activeNotes := by
        simp [applyGameAction]
      rw [h] at hn'
      exact advanceTick_tailInv s n' hn' tl' htl' hin'
  | endGame =>
      exact fun n' hn' => advanceTick_tailInv _ n' hn'
  | addNotes group =>
      exact fun n' hn' => advanceTick_tailInv _ n' hn'
  | press column =>
      intro n' hn' tl' htl' hin'
      rw [show (applyGameAction s (.press column)).activeNotes =
          s.activeNotes.map (pressNoteUpd column) from pressButton_activeNotes column s] at hn'
      obtain ⟨n, hn, hupd⟩ := List.mem_map.mp hn'
      by_cases hm : pressMatch column n = true
      · rw [← hupd]
        simp [pressNoteUpd, hm]
      · have heq : n' = n := by rw [← hupd]; simp [pressNoteUpd, hm]
        subst heq
        exact hs _ hn tl' htl' hin'
  | release column =>
      intro n' hn' tl' htl' hin'
      rw [show (applyGameAction s (.release column)).activeNotes =
          s.activeNotes.map (releaseNoteUpd column) from
        releaseButton_activeNotes column s] at hn'
      obtain ⟨n, hn, hupd⟩ := List.mem_map.mp hn'
      by_cases hm : releaseMatch column n = true
      · have hvis : n.visible = false := by
          unfold releaseMatch at hm
          simp only [Bool.and_eq_true, Bool.not_eq_true'] at hm
          exact hm.1.2
        rw [← hupd]
        simp [releaseNoteUpd, hm, hvis]
      · have heq : n' = n := by rw [← hupd]; simp [releaseNoteUpd, hm]
        subst heq
        exact hs _ hn tl' htl' hin'

/-- Every reachable state satisfies the tail invariant. -/
theorem reachable_tailInv (s : GameState) (h : Reachable s) : TailInvariant s := by
  obtain ⟨acts, rfl⟩ := h
  have hgen : ∀ (acts : List GameAction) (s₀ : GameState), TailInvariant s₀ →
      TailInvariant (acts.foldl applyGameAction s₀) := by
    intro acts
    induction acts with
    | nil => intro s₀ h₀; exact h₀
    | cons a t ih =>
        intro s₀ h₀
        exact ih _ (applyGameAction_tailInv s₀ a h₀)
  have hdef : TailInvariant defaultState := by
    intro n hn
    simp [defaultState] at hn
  exact hgen acts defaultState hdef

/-- The press per-note update never touches the tail field. -/
theorem pressNoteUpd_tail (c : ℕ) (n : MusicalNote) :
    (pressNoteUpd c n).tail = n.tail := by
  unfold pressNoteUpd
  split_ifs <;> rfl

/-- The release per-note update keeps the presence of a tail unchanged. -/
theorem releaseNoteUpd_tail_isSome (c : ℕ) (n : MusicalNote) :
    (releaseNoteUpd c n).tail.isSome = n.tail.isSome := by
  unfold releaseNoteUpd
  split_ifs with h
  · simp
  · rfl

/-- A release leaves a note with an already-inactive tail untouched (it
only matches tails that are not yet inactive). -/
theorem releaseNoteUpd_of_inactive (c : ℕ) (n : MusicalNote) (tl : TailInfo)
    (htl : n.tail = some tl) (hin : tl.inactive = true) : releaseNoteUpd c n = n := by
  unfold releaseNoteUpd
  rw [if_neg]
  simp [releaseMatch, htl, hin]

/-- The tick update of a tailless note stays tailless. -/
theorem tickNoteStep_tail_none (n n' : MusicalNote) (htail : n.tail = none)
    (h : tickNoteStep n = some n') : n'.tail = none := by
  unfold tickNoteStep calcPositionForGame updateNoteYPos at h
  rw [htail] at h
  dsimp only at h
  split_ifs at h <;> simp at h <;> (try subst h) <;> simp_all

/-- C5 (confirmed): on every reachable state, every action evolves the
pre-transition active notes through a per-note update (plus, for
`AddNoteGroup`, freshly spawned notes); that update never flips the
presence of a note's `tail`, and once a note's tail is inactive every
survivor of the note keeps an inactive tail — and the resulting state
again satisfies the tail invariant, so no later transition can flip it
back either. -/
theorem c5_tail_inactive_permanent (s : GameState) (h : Reachable s) (a : GameAction)
    (n n' : MusicalNote) (hmem : n ∈ s.activeNotes) (hstep : noteStep a n = some n') :
    ((applyGameAction s a).activeNotes =
      s.activeNotes.filterMap (noteStep a) ++ spawnedNotes a) ∧
    TailInvariant (applyGameAction s a) ∧
    n'.tail.isSome = n.tail.isSome ∧
    (∀ tl, n.tail = some tl → tl.inactive = true →
      ∃ tl', n'.tail = some tl' ∧ tl'.inactive = true) := by
  have hinv := reachable_tailInv s h
  refine ⟨applyGameAction_activeNotes s a, applyGameAction_tailInv s a hinv, ?_, ?_⟩
  · cases a with
    | tick => exact tickNoteStep_tail_isSome n n' hstep
    | endGame => exact tickNoteStep_tail_isSome n n' hstep
    | addNotes group => exact tickNoteStep_tail_isSome n n' hstep
    | press column =>
        have heq : pressNoteUpd column n = n' := Option.some.inj hstep
        rw [← heq, pressNoteUpd_tail]
    | release column =>
        have heq : releaseNoteUpd column n = n' := Option.some.inj hstep
        rw [← heq, releaseNoteUpd_tail_isSome]
  · intro tl htl hin
    cases a with
    | tick =>
        exact tickNoteStep_tail_inactive n n' (hinv n hmem tl htl hin) tl htl hin hstep
    | endGame =>
        exact tickNoteStep_tail_inactive n n' (hinv n hmem tl htl hin) tl htl hin hstep
    | addNotes group =>
        exact tickNoteStep_tail_inactive n n' (hinv n hmem tl htl hin) tl htl hin hstep
    | press column =>
        have heq : pressNoteUpd column n = n' := Option.some.inj hstep
        refine ⟨tl, ?_, hin⟩
        rw [← heq, pressNoteUpd_tail]
        exact htl
    | release column =>
        have heq : releaseNoteUpd column n = n' := Option.some.inj hstep
        refine ⟨tl, ?_, hin⟩
        rw [← heq, releaseNoteUpd_of_inactive column n tl htl hin]
        exact htl

theorem addNotes_longNote_active :
    (applyGameAction defaultState (.addNotes [longNote])).activeNotes = [longNoteTicked1] := by
  rw [show (applyGameAction defaultState (.addNotes [longNote])).activeNotes =
      (defaultState.activeNotes ++ [longNote].map tailDecide).filterMap tickNoteStep from by
    simp [applyGameAction, advanceTick_activeNotes]]
  norm_num [defaultState, tailDecide, List.filterMap, tickNoteStep, calcPositionForGame,
    updateNoteYPos, longNote, longNoteTicked1, GameSettings.INCREMENT,
    GameSettings.LAST_ROW, GameSettings.RATE]

theorem stateResolvedTail_active :
    stateResolvedTail.activeNotes = [longNoteResolved] := by
  have h : stateResolvedTail =
      applyGameAction (applyGameAction defaultState (.addNotes [longNote])) .tick := rfl
  rw [h, show (applyGameAction (applyGameAction defaultState
        (.addNotes [longNote])) .tick).activeNotes =
      ((applyGameAction defaultState (.addNotes [longNote])).activeNotes).filterMap
        tickNoteStep from by
    simp [applyGameAction, advanceTick_activeNotes], addNotes_longNote_active]
  norm_num [List.filterMap, tickNoteStep, calcPositionForGame, updateNoteYPos,
    longNoteTicked1, longNote, longNoteResolved, GameSettings.INCREMENT,
    GameSettings.LAST_ROW]

theorem noteStep_longNoteResolved :
    noteStep .tick longNoteResolved = some longNoteDrained := by
  norm_num [noteStep, tickNoteStep, calcPositionForGame, updateNoteYPos, longNoteResolved,
    longNote, longNoteDrained, GameSettings.INCREMENT, GameSettings.LAST_ROW]

/-- Witness for C5: on a concrete reachable state whose only active note
has an inactive tail, one more tick keeps the tail present and inactive. -/
theorem c5_tail_inactive_permanent_witness :
    ((applyGameAction stateResolvedTail .tick).activeNotes =
      stateResolvedTail.activeNotes.filterMap (noteStep .tick) ++ spawnedNotes .tick) ∧
    longNoteDrained.tail.isSome = longNoteResolved.tail.isSome ∧
    (∃ tl', longNoteDrained.tail = some tl' ∧ tl'.inactive = true) := by
  have h := c5_tail_inactive_permanent stateResolvedTail
    ⟨[.addNotes [longNote], .tick], rfl⟩ .tick longNoteResolved longNoteDrained
    (by rw [stateResolvedTail_active]; simp) noteStep_longNoteResolved
  exact ⟨h.1, h.2.2.1, h.2.2.2 _ rfl rfl⟩

/-- C10 (confirmed): a group note that is visible with duration above
1000 ms receives a fresh tail spanning `duration / RATE` above its spawn
position; every other group note gets `tail := none`; `AddNoteGroup`
appends the tail-decided group (ticked once, like the pre-existing notes)
to `activeNotes`; and a tailless note never acquires a tail under any
action's per-note update. -/
theorem c10_tail_attachment (g : List MusicalNote) (s : GameState) (n : MusicalNote) :
    (n.visible = true → n.endTime - n.startTime > 1000 →
      (tailDecide n).tail = some
        { start := n.yPos - (n.endTime - n.startTime) / GameSettings.RATE
          end_ := n.yPos
          inactive := false }) ∧
    (¬(n.visible = true ∧ n.endTime - n.startTime > 1000) →
      (tailDecide n).tail = none) ∧
    ((applyGameAction s (.addNotes g)).activeNotes =
      s.activeNotes.filterMap tickNoteStep ++ (g.map tailDecide).filterMap tickNoteStep) ∧
    (∀ a n', n.tail = none → noteStep a n = some n' → n'.tail = none) := by
  refine ⟨?_, ?_, ?_, ?_⟩
  · intro hv hd
    simp [tailDecide, hv, hd]
  · intro hn
    simp only [tailDecide]
    rw [if_neg hn]
  · exact applyGameAction_activeNotes s (.addNotes g)
  · intro a n' htail hstep
    cases a with
    | tick => exact tickNoteStep_tail_none n n' htail hstep
    | endGame => exact tickNoteStep_tail_none n n' htail hstep
    | addNotes group => exact tickNoteStep_tail_none n n' htail hstep
    | press column =>
        have heq : pressNoteUpd column n = n' := Option.some.inj hstep
        rw [← heq, pressNoteUpd_tail]
        exact htail
    | release column =>
        have heq : releaseNoteUpd column n = n' := Option.some.inj hstep
        rw [← heq]
        unfold releaseNoteUpd
        split_ifs
        · rw [htail]
          rfl
        · exact htail

theorem noteStep_plainNote :
    noteStep .tick plainNote = some plainNote11 := by
  norm_num [noteStep, tickNoteStep, calcPositionForGame, updateNoteYPos, plainNote,
    plainNote11, GameSettings.INCREMENT, GameSettings.LAST_ROW]

/-- Witness for C10 at concrete notes: the long visible note gets the
spec'd tail, the short note gets none and stays tailless after a tick. -/
theorem c10_tail_attachment_witness :
    (tailDecide longNote).tail = some
      { start := longNote.yPos - (longNote.endTime - longNote.startTime) / GameSettings.RATE
        end_ := longNote.yPos
        inactive := false } ∧
    (tailDecide plainNote).tail = none ∧
    plainNote11.tail = none :=
  ⟨(c10_tail_attachment [] defaultState longNote).1 rfl (by norm_num [longNote]),
   (c10_tail_attachment [] defaultState plainNote).2.1 (by norm_num [plainNote]),
   (c10_tail_attachment [] defaultState plainNote).2.2.2 .tick plainNote11 rfl
     noteStep_plainNote⟩

/-- One-step unfolding of `consumeRun`. -/
theorem consumeRun_cons (key : ℚ) (cur : List MusicalNote) (note : MusicalNote)
    (rest : List MusicalNote) :
    consumeRun key cur (note :: rest) =
      (if note.startTime = key then consumeRun key (cur ++ [note]) rest
       else cur :: consumeRun note.startTime [note] rest) := rfl

/-- The association fold of `scheduleNotes`, run on sorted input whose
keys all exceed the finished groups and extend the last open group,
produces exactly the maximal-run chunking. -/
theorem foldl_insGroup_consume :
    ∀ (ns : List MusicalNote) (done : List (ℚ × List MusicalNote)) (k : ℚ)
      (g : List MusicalNote),
      (∀ p ∈ done, ∀ m ∈ ns, p.1 ≠ m.startTime) →
      (∀ p ∈ done, p.1 ≠ k) →
      (∀ m ∈ ns, k ≤ m.startTime) →
      ns.Pairwise (fun a b => a.startTime ≤ b.startTime) →
      ((ns.foldl insGroup (done ++ [(k, g)])).map Prod.snd) =
        done.map Prod.snd ++ consumeRun k g ns := by
  intro ns
  induction ns with
  | nil =>
      intro done k g _ _ _ _
      simp [consumeRun]
  | cons m t ih =>
      intro done k g h1 h2 h3 hsorted
      rw [List.foldl_cons]
      by_cases hm : m.startTime = k
      · have hins : insGroup (done ++ [(k, g)]) m = done ++ [(k, g ++ [m])] := by
          unfold insGroup
          rw [if_pos]
          · rw [List.map_append]
            have hdone : done.map
                (fun p => if p.1 = m.startTime then (p.1, p.2 ++ [m]) else p) = done := by
              have : ∀ p ∈ done, (if p.1 = m.startTime then (p.1, p.2 ++ [m]) else p) = p := by
                intro p hp
                rw [if_neg (h1 p hp m (List.mem_cons_self m t))]
              calc done.map (fun p => if p.1 = m.startTime then (p.1, p.2 ++ [m]) else p)
                  = done.map id := List.map_congr_left this
                _ = done := List.map_id done
            rw [hdone]
            simp [hm.symm]
          · simp [List.any_append, hm.symm]
        rw [hins]
        rw [ih done k (g ++ [m])
          (fun p hp m' hm' => h1 p hp m' (List.mem_cons_of_mem m hm')) h2
          (fun m' hm' => h3 m' (List.mem_cons_of_mem m hm')) hsorted.of_cons]
        rw [consumeRun_cons, if_pos hm]
      · have hlt : ∀ m' ∈ t, m.startTime ≤ m'.startTime := by
          intro m' hm'
          exact (List.pairwise_cons.mp hsorted).1 m' hm'
        have hkm : k < m.startTime :=
          lt_of_le_of_ne (h3 m (List.mem_cons_self m t)) (fun he => hm he.symm)
        have hins : insGroup (done ++ [(k, g)]) m =
            (done ++ [(k, g)]) ++ [(m.startTime, [m])] := by
          unfold insGroup
          rw [if_neg]
          simp only [List.any_append, List.any_cons, List.any_nil, Bool.or_false,
            Bool.or_eq_true, List.any_eq_true, decide_eq_true_eq]
          rintro (⟨p, hp, hpe⟩ | hke)
          · exact h1 p hp m (List.mem_cons_self m t) hpe
          · exact hm hke.symm
        rw [hins]
        rw [ih (done ++ [(k, g)]) m.startTime [m]
          (by
            intro p hp m' hm'
            rcases List.mem_append.mp hp with hpd | hpl
            · exact h1 p hpd m' (List.mem_cons_of_mem m hm')
            · have hpk : p = (k, g) := by simpa using hpl
              subst hpk
              exact ne_of_lt (lt_of_lt_of_le hkm (hlt m' hm')))
          (by
            intro p hp
            rcases List.mem_append.mp hp with hpd | hpl
            · exact h1 p hpd m (List.mem_cons_self m t)
            · have hpk : p = (k, g) := by simpa using hpl
              subst hpk
              exact fun he => hm he.symm)
          hlt hsorted.of_cons]
        rw [consumeRun_cons, if_neg hm]
        simp

/-- On chronologically sorted input, `scheduleNotes` produces exactly the
maximal runs of notes sharing an identical start time. -/
theorem scheduleNotes_sorted_runs (ns : List MusicalNote)
    (hs : ns.Pairwise (fun a b => a.startTime ≤ b.startTime)) :
    scheduleNotes ns = specGroupRuns ns := by
  cases ns with
  | nil => rfl
  | cons m t =>
      unfold scheduleNotes specGroupRuns
      rw [List.foldl_cons]
      have hins : insGroup [] m = [] ++ [(m.startTime, [m])] := by
        simp [insGroup]
      rw [hins]
      rw [foldl_insGroup_consume t [] m.startTime [m] (by simp) (by simp)
        (fun m' hm' => (List.pairwise_cons.mp hs).1 m' hm') hs.of_cons]
      simp

theorem delayNotes_length (st : Option ℚ) (gs : List (List MusicalNote)) :
    (delayNotes st gs).length = gs.length := by
  induction gs generalizing st with
  | nil => rfl
  | cons g gs ih => simp [delayNotes, ih]

/-- After the first group, each emitted delay is the current group's
start time minus the previous group's start time. -/
theorem delayNotes_delays_tail :
    ∀ (gs : List (List MusicalNote)) (st : Option ℚ),
      ((delayNotes st gs).map ScheduledNotes.delay).tail =
        List.zipWith (fun cur prev => headStartTime cur - headStartTime prev) gs.tail gs := by
  have aux : ∀ (gs : List (List MusicalNote)) (prev : List MusicalNote),
      (delayNotes (some (headStartTime prev)) gs).map ScheduledNotes.delay =
        List.zipWith (fun cur prev => headStartTime cur - headStartTime prev) gs
          (prev :: gs) := by
    intro gs
    induction gs with
    | nil => intro prev; rfl
    | cons g gs ih =>
        intro prev
        simp only [delayNotes, List.map_cons, List.zipWith_cons_cons]
        exact congrArg _ (ih g)
  intro gs st
  cases gs with
  | nil => rfl
  | cons g gs =>
      simp only [delayNotes, List.map_cons, List.tail_cons]
      exact aux gs g

theorem delayNotes_head_none (g : List MusicalNote) (gs : List (List MusicalNote)) :
    ((delayNotes none (g :: gs)).head?).map ScheduledNotes.delay = some 0 := rfl

theorem delayNotes_head_some (v : ℚ) (g : List MusicalNote) (gs : List (List MusicalNote)) :
    ((delayNotes (some v) (g :: gs)).head?).map ScheduledNotes.delay =
      some (headStartTime g - v) := rfl

theorem scheduleNotes_fiveNotes :
    scheduleNotes fiveNotes = [[schedNote 1 0, schedNote 2 0],
      [schedNote 3 500, schedNote 4 500, schedNote 5 500]] := by
  decide

/-- C8 (confirmed): on chronologically sorted input the scheduler's groups
are exactly the maximal runs of equal `startTime`; the first group's delay
is 0 with no initial start time (and is the offset from a supplied initial
start time otherwise); every subsequent group's delay is its start time
minus the previous group's start time; and the concrete input with start
times `[0, 0, 500, 500, 500]` yields exactly two groups of sizes `[2, 3]`
with delays `[0, 500]`. -/
theorem c8_scheduler (ns : List MusicalNote)
    (hs : ns.Pairwise (fun a b => a.startTime ≤ b.startTime)) :
    scheduleNotes ns = specGroupRuns ns ∧
    (∀ (g : List MusicalNote) (gs : List (List MusicalNote)),
      ((delayNotes none (g :: gs)).head?).map ScheduledNotes.delay = some 0) ∧
    (∀ (v : ℚ) (g : List MusicalNote) (gs : List (List MusicalNote)),
      ((delayNotes (some v) (g :: gs)).head?).map ScheduledNotes.delay =
        some (headStartTime g - v)) ∧
    (∀ (st : Option ℚ) (gs : List (List MusicalNote)),
      ((delayNotes st gs).map ScheduledNotes.delay).tail =
        List.zipWith (fun cur prev => headStartTime cur - headStartTime prev) gs.tail gs) ∧
    scheduleNotes fiveNotes = [[schedNote 1 0, schedNote 2 0],
      [schedNote 3 500, schedNote 4 500, schedNote 5 500]] ∧
    (delayNotes none (scheduleNotes fiveNotes)).map ScheduledNotes.delay = [0, 500] ∧
    (scheduleNotes fiveNotes).map List.length = [2, 3] := by
  refine ⟨scheduleNotes_sorted_runs ns hs, delayNotes_head_none, delayNotes_head_some,
    fun st gs => delayNotes_delays_tail gs st, scheduleNotes_fiveNotes, ?_, ?_⟩
  · rw [scheduleNotes_fiveNotes]
    norm_num [delayNotes, headStartTime, schedNote]
  · rw [scheduleNotes_fiveNotes]
    rfl

/-- Witness for C8 at the concrete five-note list (which is sorted). -/
theorem c8_scheduler_witness :
    scheduleNotes fiveNotes = specGroupRuns fiveNotes ∧
    (delayNotes none (scheduleNotes fiveNotes)).map ScheduledNotes.delay = [0, 500] ∧
    (scheduleNotes fiveNotes).map List.length = [2, 3] := by
  have h := c8_scheduler fiveNotes (by decide)
  exact ⟨h.1, h.2.2.2.2.2.1, h.2.2.2.2.2.2⟩
